import Mathlib

/-!
Verification of the channel content index bot (bot.py, "Version 17").

The Python source is shallowly embedded below: captions are `List Char`,
the in-memory `movie_index` dict is an association list with in-place
replacement, and the two regular expressions used by `update_index`
(`#Title\s+([^\n]+)` and `#Lang\s+([a-zA-Z]{2})`, both IGNORECASE) are
implemented as explicit leftmost-match scanners with the exact greedy /
backtracking semantics of Python `re.search` for those two patterns.
Network calls (Telegram, TMDB) are abstracted to their data: `search_tmdb`
is modelled by its result-selection logic over the provider's response
list, and `search_media` takes the provider outcome as a parameter and
returns the trace of lookup stages plus the rendered response.
-/

/-- Python whitespace class `\s` restricted to ASCII, as used by `re` and
`str.strip()`: space, tab, newline, carriage return, vertical tab, form feed. -/
def isPySpace (c : Char) : Bool :=
  c == ' ' || c == '\t' || c == '\n' || c == '\r' || c == '\x0b' || c == '\x0c'

/-- ASCII alphabetic character, the `[a-zA-Z]` class. -/
def isAlphaCh (c : Char) : Bool :=
  (65 ≤ c.toNat && c.toNat ≤ 90) || (97 ≤ c.toNat && c.toNat ≤ 122)

/-- ASCII lower-casing of one character, as `str.lower()` does for ASCII. -/
def pyLowerChar : Char → Char
  | 'A' => 'a' | 'B' => 'b' | 'C' => 'c' | 'D' => 'd' | 'E' => 'e' | 'F' => 'f'
  | 'G' => 'g' | 'H' => 'h' | 'I' => 'i' | 'J' => 'j' | 'K' => 'k' | 'L' => 'l'
  | 'M' => 'm' | 'N' => 'n' | 'O' => 'o' | 'P' => 'p' | 'Q' => 'q' | 'R' => 'r'
  | 'S' => 's' | 'T' => 't' | 'U' => 'u' | 'V' => 'v' | 'W' => 'w' | 'X' => 'x'
  | 'Y' => 'y' | 'Z' => 'z'
  | c => c

/-- `str.lower()`. -/
def pyLower (s : List Char) : List Char := s.map pyLowerChar

/-- `str.strip()`: drop leading and trailing Python whitespace. -/
def pyStrip (s : List Char) : List Char :=
  ((s.dropWhile isPySpace).reverse.dropWhile isPySpace).reverse

/-- Case-insensitive match of an (already lower-cased) literal pattern
against a prefix of the subject, as `re.IGNORECASE` literal matching does. -/
def ciMatch : List Char → List Char → Bool
  | [], _ => true
  | _ :: _, [] => false
  | p :: ps, c :: cs => (pyLowerChar c == p) && ciMatch ps cs

/-- The literal `#title`, lower-cased pattern of `#Title` under IGNORECASE. -/
def tTitleL : List Char := ['#', 't', 'i', 't', 'l', 'e']

/-- The literal `#lang`, lower-cased pattern of `#Lang` under IGNORECASE. -/
def tLangL : List Char := ['#', 'l', 'a', 'n', 'g']

/-- Length of the maximal leading run of Python whitespace: what the greedy
`\s+` consumes before any backtracking. -/
def wsRun : List Char → Nat
  | [] => 0
  | c :: t => if isPySpace c then wsRun t + 1 else 0

/-- Backtracking of the greedy `\s+` in `#Title\s+([^\n]+)`: starting from
the maximal whitespace-run length `r`, find the largest `s` with
`1 ≤ s ≤ r` such that the character right after the first `s` whitespace
characters exists and is not a newline (so that `([^\n]+)` can start
there). Returns that `s`, or `none` when the `\s+`-then-`[^\n]+` tail can
never match. -/
def capStart : Nat → List Char → Option Nat
  | 0, _ => none
  | r + 1, rest =>
    match rest.drop (r + 1) with
    | c :: _ => if c = '\n' then capStart r rest else some (r + 1)
    | [] => capStart r rest

/-- The match of `#Title\s+([^\n]+)` (IGNORECASE) anchored at the head of
`s`; returns the captured group. -/
def titleAt (s : List Char) : Option (List Char) :=
  if ciMatch tTitleL s then
    let rest := s.drop 6
    match capStart (wsRun rest) rest with
    | some k => some ((rest.drop k).takeWhile (fun c => !(c == '\n')))
    | none => none
  else none

/-- `re.search(r'#Title\s+([^\n]+)', caption, re.IGNORECASE)`: the captured
group of the leftmost match. -/
def searchTitle : List Char → Option (List Char)
  | [] => none
  | c :: t =>
    match titleAt (c :: t) with
    | some r => some r
    | none => searchTitle t

/-- The match of `#Lang\s+([a-zA-Z]{2})` (IGNORECASE) anchored at the head
of `s`; returns the captured two characters. After the greedy `\s+`, the
two following characters must be ASCII letters (backtracking `\s+` cannot
help, because a whitespace character is never a letter). -/
def langAt (s : List Char) : Option (List Char) :=
  if ciMatch tLangL s then
    let rest := s.drop 5
    let r := wsRun rest
    if r = 0 then none
    else
      match rest.drop r with
      | a :: b :: _ => if isAlphaCh a && isAlphaCh b then some [a, b] else none
      | _ => none
  else none

/-- `re.search(r'#Lang\s+([a-zA-Z]{2})', caption, re.IGNORECASE)`: the
captured group of the leftmost match. -/
def searchLang : List Char → Option (List Char)
  | [] => none
  | c :: t =>
    match langAt (c :: t) with
    | some r => some r
    | none => searchLang t


/-- Truthiness of an optional Python string: `None` and `""` are falsy. -/
def truthyOS : Option String → Bool
  | none => false
  | some s => s != ""

/-- Truthiness of an optional Python string held as a char list. -/
def truthyL : Option (List Char) → Bool
  | none => false
  | some l => !l.isEmpty

/-- One stored value of `movie_index`. -/
structure Entry where
  file_id : Option String
  file_type : Option String
  original_caption : List Char
  message_id : Nat
  buttons : List (List Char × List Char)
deriving DecidableEq, Repr

/-- The `movie_index` dict: insertion-ordered association list. -/
abbrev Store := List (List Char × Entry)

/-- `movie_index.get(key)`. -/
def dictGet : Store → List Char → Option Entry
  | [], _ => none
  | (k, v) :: t, key => if k = key then some v else dictGet t key

/-- `movie_index[key] = value`: replace in place if the key is present,
append otherwise (Python dict semantics). -/
def dictSet : Store → List Char → Entry → Store
  | [], key, v => [(key, v)]
  | (k, w) :: t, key, v =>
    if k = key then (key, v) :: t else (k, w) :: dictSet t key v

/-- `len(movie_index)`. -/
def dictSize (st : Store) : Nat := st.length

/-- An incoming channel-post (or edited-channel-post) object, reduced to
the fields `update_index` reads. `photo` is the list of photo-size file
ids in Telegram's smallest-to-largest order. -/
structure Post where
  chat_id : String
  message_id : Nat
  caption : Option (List Char)
  photo : List String
  video : Option String
  document : Option String
deriving DecidableEq, Repr

/-- Split on first occurrence of the two adjacent characters `](`:
returns the part before and the part after. Models how the lazy group in
`\[(.*?)\]\((.*?)\)` ends at the first position where the rest of the
pattern can continue. -/
def breakBracketParen : List Char → Option (List Char × List Char)
  | [] => none
  | ']' :: '(' :: t => some ([], t)
  | c :: t =>
    match breakBracketParen t with
    | some (a, b) => some (c :: a, b)
    | none => none

/-- Split at the first `)`: part before and part after. -/
def breakParen : List Char → Option (List Char × List Char)
  | [] => none
  | ')' :: t => some ([], t)
  | c :: t =>
    match breakParen t with
    | some (a, b) => some (c :: a, b)
    | none => none

/-- `re.findall(r'\[(.*?)\]\((.*?)\)', line)`: all non-overlapping
matches, scanning left to right, resuming after each match. The fuel
argument bounds the recursion; each step consumes at least one character,
so `line.length` fuel is always enough. -/
def findPairsGo : Nat → List Char → List (List Char × List Char)
  | 0, _ => []
  | _ + 1, [] => []
  | fuel + 1, '[' :: t =>
    match breakBracketParen t with
    | some (label, rest) =>
      match breakParen rest with
      | some (url, rest2) => (label, url) :: findPairsGo fuel rest2
      | none => findPairsGo fuel t
    | none => findPairsGo fuel t
  | fuel + 1, _ :: t => findPairsGo fuel t

/-- All `[label](url)` matches of one line, in order of appearance. -/
def findPairs (line : List Char) : List (List Char × List Char) :=
  findPairsGo line.length line

/-- `caption.split('\n')` (keeps empty pieces, `"".split('\n') == [""]`). -/
def splitLines : List Char → List (List Char)
  | [] => [[]]
  | c :: t =>
    if c = '\n' then [] :: splitLines t
    else
      match splitLines t with
      | [] => [[c]]
      | l :: ls => (c :: l) :: ls

/-- `'\n'.join(lines)`. -/
def joinLines : List (List Char) → List Char
  | [] => []
  | l :: ls =>
    match ls with
    | [] => l
    | _ :: _ => l ++ '\n' :: joinLines ls

/-- Substring test, Python `needle in hay`. -/
def isSub (n : List Char) : List Char → Bool
  | [] => decide (n = [])
  | c :: t => n.isPrefixOf (c :: t) || isSub n t

/-- `line.strip().lower().startswith('#button')`. -/
def isButtonLine (line : List Char) : Bool :=
  ("#button".data).isPrefixOf (pyLower (pyStrip line))

/-- Buttons contributed by one caption line: nothing unless the line
starts (after strip/lower) with `#button`; otherwise every `[label](url)`
pair whose raw label and raw url are non-empty, with both stripped. -/
def buttonsOfLine (line : List Char) : List (List Char × List Char) :=
  if isButtonLine line then
    ((findPairs line).filter (fun p => !p.1.isEmpty && !p.2.isEmpty)).map
      (fun p => (pyStrip p.1, pyStrip p.2))
  else []

/-- The button-extraction loop of `update_index`. -/
def extract_buttons (caption : List Char) : List (List Char × List Char) :=
  ((splitLines caption).map buttonsOfLine).flatten

/-- `f"{title}_{lang}"` with `title`/`lang` as computed in `update_index`:
each regex group stripped then lower-cased. -/
def index_key (tg lg : List Char) : List Char :=
  pyLower (pyStrip tg) ++ '_' :: pyLower (pyStrip lg)

/-- The file id carried by the incoming post: last (largest) photo size,
else video, else document, following the `if/elif` chain. -/
def currentFileId (p : Post) : Option String :=
  if p.photo.isEmpty then
    if p.video.isSome then p.video else p.document
  else p.photo.getLast?

/-- The media kind carried by the incoming post, same precedence. -/
def currentFileType (p : Post) : Option String :=
  if p.photo.isEmpty then
    if p.video.isSome then some "video"
    else if p.document.isSome then some "document"
    else none
  else some "photo"

/-- `update_index`: the store mutation performed for one channel-post (or
edited-channel-post) event. The reaction side effect is network-only and
not part of the store semantics. -/
def update_index (channelId : String) (st : Store) (p : Post) : Store :=
  if p.chat_id = channelId then
    match p.caption with
    | none => st
    | some caption =>
      match searchTitle caption, searchLang caption with
      | some tg, some lg =>
        let key := index_key tg lg
        let existing := dictGet st key
        let cfid := currentFileId p
        let cftype := currentFileType p
        let ffid := if truthyOS cfid then cfid else existing.bind Entry.file_id
        let fftype := if truthyOS cftype then cftype else existing.bind Entry.file_type
        dictSet st key
          { file_id := ffid
            file_type := fftype
            original_caption := caption
            message_id := p.message_id
            buttons := extract_buttons caption }
      | _, _ => st
  else st

/-- The keep condition of the caption cleaning loop in `search_media`: a
line survives unless it contains (case-sensitively) the substring
`#Title`, `#Lang` or `#Button`. -/
def keepLine (line : List Char) : Bool :=
  !(isSub ("#Title".data) line || isSub ("#Lang".data) line ||
    isSub ("#Button".data) line)

/-- The caption cleaning loop of `search_media`, line by line with an
accumulator as in the source: skip the lines `keepLine` rejects, join the
survivors with newlines, strip the result. -/
def cleanLinesLoop : List (List Char) → List (List Char)
  | [] => []
  | line :: t => if keepLine line then line :: cleanLinesLoop t else cleanLinesLoop t

/-- `search_media`'s cleaned caption for display. -/
def cleaned_caption (caption : List Char) : List Char :=
  pyStrip (joinLines (cleanLinesLoop (splitLines caption)))

/-- Lookup stages of the query resolver, from the spec's state machine.
The code of this snapshot only ever enters `providerA` and `indexLookup`;
`providerB` is listed so that its absence from every trace is statable. -/
inductive Stage
  | providerA
  | providerB
  | indexLookup
deriving DecidableEq, Repr

/-- The response `search_media` produces for the user. -/
inductive Response
  | tmdbReply
  | indexReply (file_id : Option String) (file_type : Option String)
      (caption : List Char) (buttons : List (List Char × List Char))
  | notFound
deriving DecidableEq, Repr

/-- `search_media`: control flow of the resolver. The TMDB network call is
abstracted by the `tmdb` parameter (its returned data, or `None`); the
function returns the ordered trace of lookup stages entered plus the
response sent. -/
def search_media (text : List Char) (userLang : Option (List Char))
    (tmdb : Option Unit) (index : Store) : List Stage × Response :=
  let q := pyStrip (pyLower text)
  match tmdb with
  | some _ => ([Stage.providerA], Response.tmdbReply)
  | none =>
    if truthyL userLang then
      let key := q ++ '_' :: userLang.getD []
      match dictGet index key with
      | some e =>
        ([Stage.providerA, Stage.indexLookup],
          Response.indexReply e.file_id e.file_type
            (cleaned_caption e.original_caption) e.buttons)
      | none => ([Stage.providerA, Stage.indexLookup], Response.notFound)
    else ([Stage.providerA], Response.notFound)

/-- One element of TMDB's `search/movie` response list, reduced to the
fields the selection loop reads. -/
structure TmdbMovie where
  id : Nat
  original_language : String
deriving DecidableEq, Repr

/-- The result-selection logic of `search_tmdb` (lines 211-219): empty
response means not found; with a truthy language code, the first result
whose `original_language` equals it wins; otherwise the first result wins;
finally `if not found_movie_id: return None` also rejects a falsy id 0. -/
def tmdb_select (results : List TmdbMovie) (lang_code : Option String) : Option Nat :=
  match results with
  | [] => none
  | first :: _ =>
    let found : Option Nat :=
      if truthyOS lang_code then
        (results.find? (fun m => m.original_language == lang_code.getD "")).map TmdbMovie.id
      else some first.id
    match found with
    | some i => if i = 0 then none else some i
    | none => none


/-- The claim-key computation of `update_index`: the key stored for a
caption, when both tags are found. -/
def captionKey (c : List Char) : Option (List Char) :=
  match searchTitle c, searchLang c with
  | some tg, some lg => some (index_key tg lg)
  | _, _ => none

theorem dictGet_dictSet_self (st : Store) (k : List Char) (v : Entry) :
    dictGet (dictSet st k v) k = some v := by
  induction st with
  | nil => simp [dictSet, dictGet]
  | cons h t ih =>
    obtain ⟨k', v'⟩ := h
    by_cases hk : k' = k
    · simp [dictSet, hk, dictGet]
    · simp [dictSet, hk, dictGet, ih]

theorem dictSet_dictSet_same (st : Store) (k : List Char) (v w : Entry) :
    dictSet (dictSet st k v) k w = dictSet st k w := by
  induction st with
  | nil => simp [dictSet]
  | cons h t ih =>
    obtain ⟨k', v'⟩ := h
    by_cases hk : k' = k
    · simp [dictSet, hk]
    · simp [dictSet, hk, ih]

/-- Unfolding of `update_index` on the accept path: target channel, caption
present, both tags found. -/
theorem update_index_eq (ch : String) (st : Store) (p : Post) (c tg lg : List Char)
    (hch : p.chat_id = ch) (hc : p.caption = some c)
    (ht : searchTitle c = some tg) (hl : searchLang c = some lg) :
    update_index ch st p =
      dictSet st (index_key tg lg)
        { file_id := if truthyOS (currentFileId p) then currentFileId p
            else (dictGet st (index_key tg lg)).bind Entry.file_id
          file_type := if truthyOS (currentFileType p) then currentFileType p
            else (dictGet st (index_key tg lg)).bind Entry.file_type
          original_caption := c
          message_id := p.message_id
          buttons := extract_buttons c } := by
  subst hch
  simp only [update_index, hc, ht, hl, eq_self_iff_true, if_true]

/-- Unfolding of `update_index` on the four reject paths. -/
theorem update_index_skip (ch : String) (st : Store) (p : Post)
    (h : p.chat_id ≠ ch ∨ p.caption = none ∨
      ∃ c, p.caption = some c ∧ (searchTitle c = none ∨ searchLang c = none)) :
    update_index ch st p = st := by
  by_cases hch : p.chat_id = ch
  · rcases h with h | h | ⟨c, hc, h2⟩
    · exact absurd hch h
    · simp only [update_index, if_pos hch, h]
    · rcases h2 with h2 | h2
      · simp only [update_index, if_pos hch, hc, h2]
      · cases ht : searchTitle c <;>
          simp only [update_index, if_pos hch, hc, ht, h2]
  · simp only [update_index, if_neg hch]

/-- Re-applying `update_index` with the same event is a no-op on the store
it produced, whatever the event and prior store. -/
theorem update_index_idem (ch : String) (st : Store) (p : Post) :
    update_index ch (update_index ch st p) p = update_index ch st p := by
  by_cases hch : p.chat_id = ch
  · cases hc : p.caption with
    | none => rw [update_index_skip ch _ p (Or.inr (Or.inl hc))]
    | some c =>
      cases ht : searchTitle c with
      | none =>
        rw [update_index_skip ch _ p (Or.inr (Or.inr ⟨c, hc, Or.inl ht⟩))]
      | some tg =>
        cases hl : searchLang c with
        | none =>
          rw [update_index_skip ch _ p (Or.inr (Or.inr ⟨c, hc, Or.inr hl⟩))]
        | some lg =>
          rw [update_index_eq ch st p c tg lg hch hc ht hl]
          rw [update_index_eq ch _ p c tg lg hch hc ht hl]
          rw [dictGet_dictSet_self, dictSet_dictSet_same]
          congr 1
          by_cases h1 : truthyOS (currentFileId p) <;>
            by_cases h2 : truthyOS (currentFileType p) <;>
              simp [h1, h2, Option.bind]
  · rw [update_index_skip ch st p (Or.inl hch),
      update_index_skip ch st p (Or.inl hch)]

/-- C1: if an index entry with a stored media reference and media kind
already exists for a key, then processing a later event whose caption
parses to the same key but which carries no media attachment (photo, video
and document all absent) stores an entry whose media reference and kind
are the previous ones, while the caption and the buttons are recomputed
from the new caption. -/
theorem c1_caption_only_edit_preserves_media
    (ch : String) (st : Store) (p : Post) (c tg lg : List Char) (e : Entry)
    (fid ft : String)
    (hch : p.chat_id = ch) (hc : p.caption = some c)
    (ht : searchTitle c = some tg) (hl : searchLang c = some lg)
    (hph : p.photo = []) (hvid : p.video = none) (hdoc : p.document = none)
    (hex : dictGet st (index_key tg lg) = some e)
    (hfid : e.file_id = some fid) (hft : e.file_type = some ft) :
    dictGet (update_index ch st p) (index_key tg lg) =
      some { file_id := some fid, file_type := some ft,
             original_caption := c, message_id := p.message_id,
             buttons := extract_buttons c } := by
  rw [update_index_eq ch st p c tg lg hch hc ht hl, dictGet_dictSet_self]
  have h1 : currentFileId p = none := by
    simp [currentFileId, hph, hvid, hdoc]
  have h2 : currentFileType p = none := by
    simp [currentFileType, hph, hvid, hdoc]
  simp [h1, h2, truthyOS, hex, Option.bind, hfid, hft]

theorem c1_witness :
    dictGet
      (update_index "-100"
        [("foo_en".data,
          { file_id := some "PH9", file_type := some "photo",
            original_caption := ("#Title Foo\n#Lang en".data), message_id := 1,
            buttons := [] })]
        { chat_id := "-100", message_id := 2,
          caption := some ("#Title Foo\n#Lang en\nNow with a description".data),
          photo := [], video := none, document := none })
      (index_key ("Foo".data) ("en".data)) =
      some { file_id := some "PH9", file_type := some "photo",
             original_caption := ("#Title Foo\n#Lang en\nNow with a description".data),
             message_id := 2,
             buttons := extract_buttons ("#Title Foo\n#Lang en\nNow with a description".data) } :=
  c1_caption_only_edit_preserves_media "-100" _ _
    ("#Title Foo\n#Lang en\nNow with a description".data)
    ("Foo".data) ("en".data)
    { file_id := some "PH9", file_type := some "photo",
      original_caption := ("#Title Foo\n#Lang en".data), message_id := 1,
      buttons := [] }
    "PH9" "photo"
    rfl rfl (by decide) (by decide) rfl rfl rfl (by decide) rfl rfl

/-- C4: an event whose caption is absent, or whose caption lacks the title
tag or the language tag, performs no store mutation: the index after
processing equals the index before (and the updater is a total function,
so no error is raised). -/
theorem c4_no_mutation_without_tags (ch : String) (st : Store) (p : Post)
    (h : p.caption = none ∨
      ∃ c, p.caption = some c ∧ (searchTitle c = none ∨ searchLang c = none)) :
    update_index ch st p = st :=
  update_index_skip ch st p (Or.inr h)

theorem c4_witness :
    update_index "-100"
      [("foo_en".data,
        { file_id := some "PH9", file_type := some "photo",
          original_caption := ("#Title Foo\n#Lang en".data), message_id := 1,
          buttons := [] })]
      { chat_id := "-100", message_id := 3,
        caption := some ("#Title Orphan post without language".data),
        photo := ["P1"], video := none, document := none } =
      [("foo_en".data,
        { file_id := some "PH9", file_type := some "photo",
          original_caption := ("#Title Foo\n#Lang en".data), message_id := 1,
          buttons := [] })] :=
  c4_no_mutation_without_tags "-100" _ _
    (Or.inr ⟨("#Title Orphan post without language".data), rfl, Or.inr (by decide)⟩)

/-- C8: applying the same well-formed post event (both tags present) twice
in succession yields, after the second application, a store of the same
size as after the first, and the entry at the computed key is unchanged
between the two applications. -/
theorem c8_reindex_idempotent (ch : String) (st : Store) (p : Post)
    (c tg lg : List Char)
    (hch : p.chat_id = ch) (hc : p.caption = some c)
    (ht : searchTitle c = some tg) (hl : searchLang c = some lg) :
    dictSize (update_index ch (update_index ch st p) p) =
      dictSize (update_index ch st p) ∧
    dictGet (update_index ch (update_index ch st p) p) (index_key tg lg) =
      dictGet (update_index ch st p) (index_key tg lg) := by
  rw [update_index_idem]
  exact ⟨rfl, rfl⟩

theorem c8_witness :
    dictSize
      (update_index "-100"
        (update_index "-100" []
          { chat_id := "-100", message_id := 7,
            caption := some ("#Title Foo\n#Lang en\n#Button [w](https://w.test)".data),
            photo := ["S", "L"], video := none, document := none })
        { chat_id := "-100", message_id := 7,
          caption := some ("#Title Foo\n#Lang en\n#Button [w](https://w.test)".data),
          photo := ["S", "L"], video := none, document := none }) =
      dictSize
        (update_index "-100" []
          { chat_id := "-100", message_id := 7,
            caption := some ("#Title Foo\n#Lang en\n#Button [w](https://w.test)".data),
            photo := ["S", "L"], video := none, document := none }) ∧
    dictGet
      (update_index "-100"
        (update_index "-100" []
          { chat_id := "-100", message_id := 7,
            caption := some ("#Title Foo\n#Lang en\n#Button [w](https://w.test)".data),
            photo := ["S", "L"], video := none, document := none })
        { chat_id := "-100", message_id := 7,
          caption := some ("#Title Foo\n#Lang en\n#Button [w](https://w.test)".data),
          photo := ["S", "L"], video := none, document := none })
      (index_key ("Foo".data) ("en".data)) =
      dictGet
        (update_index "-100" []
          { chat_id := "-100", message_id := 7,
            caption := some ("#Title Foo\n#Lang en\n#Button [w](https://w.test)".data),
            photo := ["S", "L"], video := none, document := none })
        (index_key ("Foo".data) ("en".data)) :=
  c8_reindex_idempotent "-100" [] _
    ("#Title Foo\n#Lang en\n#Button [w](https://w.test)".data)
    ("Foo".data) ("en".data) rfl rfl (by decide) (by decide)

/-- C10: for an indexed post carrying media, the stored media kind follows
the fixed precedence photo over video over document, and a photo post
stores the file id of the last element of the photo-size list. The
non-empty file id hypotheses say the post carries a real platform
identifier. -/
theorem c10_media_precedence_last_photo
    (ch : String) (st : Store) (p : Post) (c tg lg : List Char)
    (hch : p.chat_id = ch) (hc : p.caption = some c)
    (ht : searchTitle c = some tg) (hl : searchLang c = some lg) :
    (∀ fid : String, p.photo.getLast? = some fid → fid ≠ "" →
      dictGet (update_index ch st p) (index_key tg lg) =
        some { file_id := some fid, file_type := some "photo",
               original_caption := c, message_id := p.message_id,
               buttons := extract_buttons c }) ∧
    (p.photo = [] → ∀ v : String, p.video = some v → v ≠ "" →
      dictGet (update_index ch st p) (index_key tg lg) =
        some { file_id := some v, file_type := some "video",
               original_caption := c, message_id := p.message_id,
               buttons := extract_buttons c }) ∧
    (p.photo = [] → p.video = none → ∀ d : String, p.document = some d → d ≠ "" →
      dictGet (update_index ch st p) (index_key tg lg) =
        some { file_id := some d, file_type := some "document",
               original_caption := c, message_id := p.message_id,
               buttons := extract_buttons c }) := by
  rw [update_index_eq ch st p c tg lg hch hc ht hl, dictGet_dictSet_self]
  refine ⟨?_, ?_, ?_⟩
  · intro fid hlast hne
    have hnil : p.photo ≠ [] := by
      intro h0
      rw [h0] at hlast
      simp at hlast
    have h1 : currentFileId p = some fid := by
      simp [currentFileId, List.isEmpty_iff, hnil, hlast]
    have h2 : currentFileType p = some "photo" := by
      simp [currentFileType, List.isEmpty_iff, hnil]
    simp [h1, h2, truthyOS, bne_iff_ne, hne]
  · intro hph v hv hne
    have h1 : currentFileId p = some v := by
      simp [currentFileId, hph, hv]
    have h2 : currentFileType p = some "video" := by
      simp [currentFileType, hph, hv]
    simp [h1, h2, truthyOS, bne_iff_ne, hne]
  · intro hph hv d hd hne
    have h1 : currentFileId p = some d := by
      simp [currentFileId, hph, hv, hd]
    have h2 : currentFileType p = some "document" := by
      simp [currentFileType, hph, hv, hd]
    simp [h1, h2, truthyOS, bne_iff_ne, hne]

theorem c10_witness :
    dictGet
      (update_index "-100" []
        { chat_id := "-100", message_id := 9,
          caption := some ("#Title Foo\n#Lang en".data),
          photo := ["small", "medium", "large"], video := some "VID",
          document := none })
      (index_key ("Foo".data) ("en".data)) =
      some { file_id := some "large", file_type := some "photo",
             original_caption := ("#Title Foo\n#Lang en".data), message_id := 9,
             buttons := extract_buttons ("#Title Foo\n#Lang en".data) } :=
  (c10_media_precedence_last_photo "-100" [] _ ("#Title Foo\n#Lang en".data)
    ("Foo".data) ("en".data) rfl rfl (by decide) (by decide)).1
    "large" rfl (by decide)

/-- C2 counterexample: with the TMDB stage yielding nothing and a language
preference set, resolution goes straight from provider A to the local
index (which succeeds here); no provider B stage is ever entered, although
the claim requires provider B to be attempted whenever provider A yields
nothing. -/
theorem c2_counterexample :
    (search_media ("Foo".data) (some ("en".data)) none
        [("foo_en".data,
          { file_id := some "F1", file_type := some "photo",
            original_caption := ("#Title Foo\n#Lang en".data), message_id := 1,
            buttons := [] })]).1 = [Stage.providerA, Stage.indexLookup] ∧
    Stage.providerB ∉
      (search_media ("Foo".data) (some ("en".data)) none
        [("foo_en".data,
          { file_id := some "F1", file_type := some "photo",
            original_caption := ("#Title Foo\n#Lang en".data), message_id := 1,
            buttons := [] })]).1 ∧
    (search_media ("Foo".data) (some ("en".data)) none
        [("foo_en".data,
          { file_id := some "F1", file_type := some "photo",
            original_caption := ("#Title Foo\n#Lang en".data), message_id := 1,
            buttons := [] })]).2 ≠ Response.notFound := by decide

/-- C2 amended: resolution tries provider A first and short-circuits on
success; if provider A yields nothing and a language preference is set,
the local index is consulted (hit renders the stored entry, miss gives the
uniform not-found response); if provider A yields nothing and no
preference is set, the uniform not-found response is returned directly.
There is no provider B stage, and every stage is entered at most once. -/
theorem c2_amended_cascade (text : List Char) (lang : Option (List Char))
    (tmdb : Option Unit) (idx : Store) :
    (∀ u : Unit, tmdb = some u →
      search_media text lang tmdb idx = ([Stage.providerA], Response.tmdbReply)) ∧
    (tmdb = none → truthyL lang = false →
      search_media text lang tmdb idx = ([Stage.providerA], Response.notFound)) ∧
    (tmdb = none → truthyL lang = true →
      (search_media text lang tmdb idx).1 = [Stage.providerA, Stage.indexLookup] ∧
      (dictGet idx (pyStrip (pyLower text) ++ '_' :: lang.getD []) = none →
        (search_media text lang tmdb idx).2 = Response.notFound) ∧
      (∀ e : Entry, dictGet idx (pyStrip (pyLower text) ++ '_' :: lang.getD []) = some e →
        (search_media text lang tmdb idx).2 =
          Response.indexReply e.file_id e.file_type
            (cleaned_caption e.original_caption) e.buttons)) ∧
    ((search_media text lang tmdb idx).1 = [Stage.providerA] ∨
     (search_media text lang tmdb idx).1 = [Stage.providerA, Stage.indexLookup]) := by
  cases tmdb with
  | some u =>
    exact ⟨fun v _ => rfl, fun h => absurd h (by simp),
      fun h => absurd h (by simp), Or.inl rfl⟩
  | none =>
    cases hL : truthyL lang with
    | false =>
      refine ⟨fun v h => absurd h (by simp), fun _ _ => ?_,
        fun _ htrue => absurd htrue (by simp), Or.inl ?_⟩
      · simp [search_media, hL]
      · simp [search_media, hL]
    | true =>
      refine ⟨fun v h => absurd h (by simp),
        fun _ hfalse => absurd hfalse (by simp),
        fun _ _ => ⟨?_, fun hg => ?_, fun e hg => ?_⟩, Or.inr ?_⟩
      · cases hg : dictGet idx (pyStrip (pyLower text) ++ '_' :: lang.getD []) <;>
          simp [search_media, hL, hg]
      · simp [search_media, hL, hg]
      · simp [search_media, hL, hg]
      · cases hg : dictGet idx (pyStrip (pyLower text) ++ '_' :: lang.getD []) <;>
          simp [search_media, hL, hg]

theorem c2_witness :
    search_media ("foo".data) none none [] = ([Stage.providerA], Response.notFound) :=
  (c2_amended_cascade ("foo".data) none none []).2.1 rfl rfl

/-- C5 counterexample: the provider response holds one result, whose
original language matches the preference, but its id is 0; the claim says
this first matching result is selected, yet the stage yields nothing
because of the falsy-id check `if not found_movie_id`. -/
theorem c5_counterexample :
    ([⟨0, "fr"⟩] : List TmdbMovie).find?
        (fun m => m.original_language == "fr") = some ⟨0, "fr"⟩ ∧
    tmdb_select [⟨0, "fr"⟩] (some "fr") = none := by decide

/-- C5 amended: with a non-empty language preference, provider A selection
returns the id of the first result (in response order) whose original
language equals the preference, provided that id is non-zero; if no result
matches, or the first matching result has the falsy id 0, the stage yields
nothing. -/
theorem c5_amended_strict_filter (results : List TmdbMovie) (lc : String)
    (h : lc ≠ "") :
    (results.find? (fun m => m.original_language == lc) = none →
      tmdb_select results (some lc) = none) ∧
    (∀ m : TmdbMovie, results.find? (fun m2 => m2.original_language == lc) = some m →
      m.id ≠ 0 → tmdb_select results (some lc) = some m.id) ∧
    (∀ m : TmdbMovie, results.find? (fun m2 => m2.original_language == lc) = some m →
      m.id = 0 → tmdb_select results (some lc) = none) := by
  have htr : truthyOS (some lc) = true := by
    simp [truthyOS, bne_iff_ne, h]
  cases results with
  | nil =>
    refine ⟨fun _ => rfl, fun m hm => ?_, fun m hm => ?_⟩ <;> simp at hm
  | cons first rest =>
    refine ⟨fun hf => ?_, fun m hm hz => ?_, fun m hm hz => ?_⟩
    · simp [tmdb_select, htr, hf]
    · simp [tmdb_select, htr, hm, hz]
    · simp [tmdb_select, htr, hm, hz]

theorem c5_witness :
    ("en" : String) ≠ "" ∧
    tmdb_select [⟨7, "fr"⟩, ⟨9, "en"⟩] (some "en") = some 9 :=
  ⟨by decide,
    (c5_amended_strict_filter [⟨7, "fr"⟩, ⟨9, "en"⟩] "en" (by decide)).2.1
      ⟨9, "en"⟩ (by decide) (by decide)⟩

/-- C6 counterexample: the spec's own example caption, whose link lines do
not start with `#Button`, yields no buttons at all instead of the claimed
two, because the code only scans lines that start (after strip and lower)
with `#button`. -/
theorem c6_counterexample :
    extract_buttons
        ("Watch here\n[Server 1](https://a.test)\n[Server 2](https://b.test)".data) = [] ∧
    extract_buttons
        ("Watch here\n[Server 1](https://a.test)\n[Server 2](https://b.test)".data) ≠
      [("Server 1".data, "https://a.test".data),
       ("Server 2".data, "https://b.test".data)] := by decide

/-- C6 amended: buttons are extracted only from caption lines that start
(after stripping and lower-casing) with `#button`; within such a line
every `[label](url)` pair is converted in order of appearance with label
and url trimmed, and pairs whose raw label or raw url is empty are
dropped. A caption without any `#button` line yields no buttons; the
spec's example works once its link lines carry the `#Button` marker. -/
theorem c6_amended_button_lines :
    (∀ caption : List Char,
      (∀ line ∈ splitLines caption, isButtonLine line = false) →
      extract_buttons caption = []) ∧
    extract_buttons
        ("Watch here\n#Button [Server 1](https://a.test)\n#Button [Server 2](https://b.test)".data) =
      [("Server 1".data, "https://a.test".data),
       ("Server 2".data, "https://b.test".data)] ∧
    extract_buttons ("#button [ lbl ]( url )[](v)[x](y)".data) =
      [("lbl".data, "url".data), ("x".data, "y".data)] := by
  refine ⟨?_, by decide, by decide⟩
  intro caption h
  show ((splitLines caption).map buttonsOfLine).flatten = []
  revert h
  induction splitLines caption with
  | nil => intro _; rfl
  | cons l t ih =>
    intro h
    have hl : buttonsOfLine l = [] := by
      simp [buttonsOfLine, h l (by simp)]
    simp only [List.map_cons, List.flatten_cons, hl, List.nil_append]
    exact ih (fun x hx => h x (List.mem_cons_of_mem _ hx))

theorem c6_witness :
    extract_buttons ("Watch here\nplain line".data) = [] :=
  c6_amended_button_lines.1 ("Watch here\nplain line".data) (by decide)

theorem cleanLinesLoop_eq_filter (L : List (List Char)) :
    cleanLinesLoop L = L.filter keepLine := by
  induction L with
  | nil => rfl
  | cons l t ih =>
    by_cases h : keepLine l <;> simp [cleanLinesLoop, h, ih, List.filter_cons]

theorem splitLines_ne_nil (c : List Char) : splitLines c ≠ [] := by
  cases c with
  | nil => simp [splitLines]
  | cons ch t =>
    by_cases h : ch = '\n'
    · simp [splitLines, h]
    · simp only [splitLines, if_neg h]
      cases splitLines t <;> simp

theorem joinLines_splitLines (c : List Char) : joinLines (splitLines c) = c := by
  induction c with
  | nil => rfl
  | cons ch t ih =>
    by_cases h : ch = '\n'
    · subst h
      simp only [splitLines, if_pos rfl]
      cases hs : splitLines t with
      | nil => exact absurd hs (splitLines_ne_nil t)
      | cons l ls =>
        rw [hs] at ih
        show '\n' :: joinLines (l :: ls) = '\n' :: t
        exact congrArg (fun x => '\n' :: x) ih
    · simp only [splitLines, if_neg h]
      cases hs : splitLines t with
      | nil => exact absurd hs (splitLines_ne_nil t)
      | cons l ls =>
        rw [hs] at ih
        cases ls with
        | nil =>
          simp only [joinLines] at ih ⊢
          rw [ih]
        | cons l2 ls2 =>
          simp only [joinLines, List.cons_append] at ih ⊢
          rw [ih]

/-- C7 counterexample: a stored caption whose title line uses a lower-case
marker (which the IGNORECASE parser accepts) and whose kept interior line
carries surrounding blanks. The code keeps the `#title` line (the removal
test is a case-sensitive substring check) and does not trim the interior
line, so the cleaned caption differs from the claim's prediction
`hello\nWorld` in both respects. -/
theorem c7_counterexample :
    cleaned_caption ("#title T\n#Lang en\n  hello  \nWorld".data) =
      ("#title T\n  hello  \nWorld".data) ∧
    cleaned_caption ("#title T\n#Lang en\n  hello  \nWorld".data) ≠
      ("hello\nWorld".data) := by decide

/-- C7 amended: the cleaned caption equals the original caption with the
lines containing the case-sensitive substrings `#Title`, `#Lang` or
`#Button` removed, the surviving lines joined unchanged (no per-line
trimming), and the whole result stripped of leading and trailing
whitespace (which strips leading/trailing blank lines). In particular a
caption none of whose lines is removed is only stripped at its ends. -/
theorem c7_amended_cleaning :
    (∀ caption : List Char,
      cleaned_caption caption =
        pyStrip (joinLines ((splitLines caption).filter keepLine))) ∧
    (∀ caption : List Char, (∀ line ∈ splitLines caption, keepLine line = true) →
      cleaned_caption caption = pyStrip caption) ∧
    cleaned_caption ("#Title t\n#Lang en\nA  \n B\nend".data) =
      ("A  \n B\nend".data) := by
  refine ⟨?_, ?_, by decide⟩
  · intro caption
    rw [cleaned_caption, cleanLinesLoop_eq_filter]
  · intro caption h
    rw [cleaned_caption, cleanLinesLoop_eq_filter, List.filter_eq_self.mpr h,
      joinLines_splitLines]

theorem c7_witness :
    cleaned_caption ("A\nB".data) = pyStrip ("A\nB".data) :=
  c7_amended_cleaning.2.1 ("A\nB".data) (by decide)

theorem pyLowerChar_eq_hash {c : Char} (h : pyLowerChar c = '#') : c = '#' := by
  unfold pyLowerChar at h
  split at h <;> simp_all

theorem space_ne_hash {c : Char} (h : isPySpace c = true) : c ≠ '#' := by
  intro hc
  subst hc
  exact absurd h (by decide)

theorem alpha_not_space {c : Char} (h : isAlphaCh c = true) : isPySpace c = false := by
  cases hs : isPySpace c with
  | false => rfl
  | true =>
    exfalso
    have hmem := hs
    simp only [isPySpace, Bool.or_eq_true, beq_iff_eq] at hmem
    rcases hmem with ((((rfl | rfl) | rfl) | rfl) | rfl) | rfl <;>
      exact absurd h (by decide)

theorem not_hash_mem_of_lower {l target : List Char} (h : pyLower l = target)
    (ht : '#' ∉ target) : '#' ∉ l := by
  intro hm
  exact ht (h ▸ List.mem_map_of_mem pyLowerChar hm)

theorem ciMatch_of_lower : ∀ (m : List Char) (pat s : List Char),
    pyLower m = pat → ciMatch pat (m ++ s) = true := by
  intro m
  induction m with
  | nil =>
    intro pat s h
    subst h
    rfl
  | cons c t ih =>
    intro pat s h
    subst h
    show ciMatch (pyLowerChar c :: pyLower t) (c :: (t ++ s)) = true
    simp [ciMatch, ih (pyLower t) s rfl]

theorem ciMatch_take : ∀ (pat s : List Char), ciMatch pat s = true →
    pyLower (s.take pat.length) = pat ∧ pat.length ≤ s.length := by
  intro pat
  induction pat with
  | nil => intro s _; exact ⟨rfl, Nat.zero_le _⟩
  | cons p ps ih =>
    intro s h
    cases s with
    | nil => exact absurd h (by simp [ciMatch])
    | cons c cs =>
      simp only [ciMatch, Bool.and_eq_true, beq_iff_eq] at h
      obtain ⟨h1, h2⟩ := h
      obtain ⟨ih1, ih2⟩ := ih cs h2
      refine ⟨?_, Nat.succ_le_succ ih2⟩
      show pyLowerChar c :: pyLower (cs.take ps.length) = p :: ps
      rw [h1, ih1]

theorem wsRun_append_all (w : List Char) (s : List Char)
    (hw : ∀ c ∈ w, isPySpace c = true) :
    wsRun (w ++ s) = w.length + wsRun s := by
  induction w with
  | nil => simp [wsRun]
  | cons c t ih =>
    have hc : isPySpace c = true := hw c (by simp)
    have hstep : wsRun (c :: (t ++ s)) = wsRun (t ++ s) + 1 := by
      simp [wsRun, hc]
    rw [List.cons_append, hstep, ih (fun x hx => hw x (by simp [hx]))]
    simp [List.length_cons]
    omega

theorem wsRun_head_false (c : Char) (s : List Char) (h : isPySpace c = false) :
    wsRun (c :: s) = 0 := by
  simp [wsRun, h]

theorem wsRun_all_take : ∀ (s : List Char), ∀ c ∈ s.take (wsRun s), isPySpace c = true := by
  intro s
  induction s with
  | nil => intro c hc; simp at hc
  | cons a t ih =>
    intro c hc
    by_cases ha : isPySpace a
    · simp only [wsRun, ha, if_pos, List.take_succ_cons, List.mem_cons] at hc
      rcases hc with rfl | hc
      · exact ha
      · exact ih c hc
    · simp [wsRun, ha] at hc

theorem wsRun_le_length : ∀ s : List Char, wsRun s ≤ s.length := by
  intro s
  induction s with
  | nil => simp [wsRun]
  | cons a t ih =>
    by_cases ha : isPySpace a <;> simp [wsRun, ha] <;> omega

theorem takeWhile_append_newline (t s : List Char) (h : '\n' ∉ t) :
    ((t ++ '\n' :: s).takeWhile (fun c => !(c == '\n'))) = t := by
  induction t with
  | nil => simp [List.takeWhile_cons]
  | cons a t2 ih =>
    have ha : a ≠ '\n' := fun hh => h (by simp [hh])
    simp [List.takeWhile_cons, ha, ih (fun hh => h (by simp [hh]))]

theorem capStart_eval (k : Nat) (rest : List Char) (th : Char) (tl : List Char)
    (hd : rest.drop (k + 1) = th :: tl) (hth : th ≠ '\n') :
    capStart (k + 1) rest = some (k + 1) := by
  unfold capStart
  rw [hd]
  simp [hth]

theorem langAt_build (mk ws : List Char) (a b : Char) (rest : List Char)
    (hm : pyLower mk = tLangL) (hws : ws ≠ [])
    (hw : ∀ c ∈ ws, isPySpace c = true)
    (ha : isAlphaCh a = true) (hb : isAlphaCh b = true) :
    langAt (mk ++ (ws ++ a :: b :: rest)) = some [a, b] := by
  have hlen : mk.length = 5 := by
    have h := congrArg List.length hm
    simpa [pyLower, tLangL] using h
  have hci : ciMatch tLangL (mk ++ (ws ++ a :: b :: rest)) = true :=
    ciMatch_of_lower mk tLangL _ hm
  have hdrop5 : (mk ++ (ws ++ a :: b :: rest)).drop 5 = ws ++ a :: b :: rest := by
    rw [← hlen, List.drop_left]
  have hwr : wsRun (ws ++ a :: b :: rest) = ws.length := by
    rw [wsRun_append_all ws _ hw, wsRun_head_false a _ (alpha_not_space ha)]
    rfl
  have hne : ws.length ≠ 0 := fun h0 => hws (List.length_eq_zero.mp h0)
  have hdropw : (ws ++ a :: b :: rest).drop ws.length = a :: b :: rest :=
    List.drop_left _ _
  simp only [langAt, hci, if_true, hdrop5, hwr, if_neg hne, hdropw, ha, hb,
    Bool.and_self, eq_self_iff_true]

theorem titleAt_build (m1 w1 : List Char) (th : Char) (tt s : List Char)
    (hm : pyLower m1 = tTitleL) (hw1 : w1 ≠ [])
    (hws : ∀ c ∈ w1, isPySpace c = true)
    (hth : isPySpace th = false) (hnl : '\n' ∉ th :: tt) :
    titleAt (m1 ++ (w1 ++ (th :: (tt ++ '\n' :: s)))) = some (th :: tt) := by
  have hlen : m1.length = 6 := by
    have h := congrArg List.length hm
    simpa [pyLower, tTitleL] using h
  have hci : ciMatch tTitleL (m1 ++ (w1 ++ (th :: (tt ++ '\n' :: s)))) = true :=
    ciMatch_of_lower m1 tTitleL _ hm
  have hdrop6 : (m1 ++ (w1 ++ (th :: (tt ++ '\n' :: s)))).drop 6 =
      w1 ++ (th :: (tt ++ '\n' :: s)) := by
    rw [← hlen, List.drop_left]
  have hwr : wsRun (w1 ++ (th :: (tt ++ '\n' :: s))) = w1.length := by
    rw [wsRun_append_all w1 _ hws, wsRun_head_false th _ hth]
    rfl
  obtain ⟨k, hk⟩ : ∃ k, w1.length = k + 1 :=
    Nat.exists_eq_succ_of_ne_zero (fun h0 => hw1 (List.length_eq_zero.mp h0))
  have hdropw : (w1 ++ (th :: (tt ++ '\n' :: s))).drop (k + 1) =
      th :: (tt ++ '\n' :: s) := by
    rw [← hk, List.drop_left]
  have hthn : th ≠ '\n' := by
    intro hh
    subst hh
    exact absurd hth (by decide)
  have hcap : capStart (k + 1) (w1 ++ (th :: (tt ++ '\n' :: s))) = some (k + 1) :=
    capStart_eval k _ th _ hdropw hthn
  have htw : ((th :: (tt ++ '\n' :: s)).takeWhile (fun c => !(c == '\n'))) =
      th :: tt := by
    have h2 : ((th :: tt) ++ '\n' :: s).takeWhile (fun c => !(c == '\n')) =
        th :: tt := takeWhile_append_newline (th :: tt) s hnl
    simpa using h2
  simp only [titleAt, hci, if_true, hdrop6, hwr, hk, hcap, hdropw, htw]

theorem searchLang_at (mk ws : List Char) (a b : Char) (rest : List Char)
    (hm : pyLower mk = tLangL) (hws : ws ≠ [])
    (hw : ∀ c ∈ ws, isPySpace c = true)
    (ha : isAlphaCh a = true) (hb : isAlphaCh b = true) :
    searchLang (mk ++ (ws ++ a :: b :: rest)) = some [a, b] := by
  cases mk with
  | nil => simp [pyLower, tLangL] at hm
  | cons c mt =>
    have h := langAt_build (c :: mt) ws a b rest hm hws hw ha hb
    rw [List.cons_append] at h ⊢
    simp [searchLang, h]

theorem searchTitle_at (m1 w1 : List Char) (th : Char) (tt s : List Char)
    (hm : pyLower m1 = tTitleL) (hw1 : w1 ≠ [])
    (hws : ∀ c ∈ w1, isPySpace c = true)
    (hth : isPySpace th = false) (hnl : '\n' ∉ th :: tt) :
    searchTitle (m1 ++ (w1 ++ (th :: (tt ++ '\n' :: s)))) = some (th :: tt) := by
  cases m1 with
  | nil => simp [pyLower, tTitleL] at hm
  | cons c mt =>
    have h := titleAt_build (c :: mt) w1 th tt s hm hw1 hws hth hnl
    rw [List.cons_append] at h ⊢
    simp [searchTitle, h]

theorem langAt_cons_none (c : Char) (t : List Char) (hc : c ≠ '#') :
    langAt (c :: t) = none := by
  have hlc : pyLowerChar c ≠ '#' := fun h => hc (pyLowerChar_eq_hash h)
  have hci : ciMatch tLangL (c :: t) = false := by
    simp [ciMatch, tLangL, hlc]
  simp [langAt, hci]

theorem titleAt_cons_none (c : Char) (t : List Char) (hc : c ≠ '#') :
    titleAt (c :: t) = none := by
  have hlc : pyLowerChar c ≠ '#' := fun h => hc (pyLowerChar_eq_hash h)
  have hci : ciMatch tTitleL (c :: t) = false := by
    simp [ciMatch, tTitleL, hlc]
  simp [titleAt, hci]

theorem langAt_cons2_none (c0 c1 : Char) (t : List Char)
    (h1 : pyLowerChar c1 ≠ 'l') : langAt (c0 :: c1 :: t) = none := by
  have hci : ciMatch tLangL (c0 :: c1 :: t) = false := by
    simp [ciMatch, tLangL, h1]
  simp [langAt, hci]

theorem searchLang_skip : ∀ (pre s : List Char), '#' ∉ pre →
    searchLang (pre ++ s) = searchLang s := by
  intro pre
  induction pre with
  | nil => intro s _; rfl
  | cons c t ih =>
    intro s h
    have hc : c ≠ '#' := fun hh => h (by simp [hh])
    show searchLang (c :: (t ++ s)) = searchLang s
    simp [searchLang, langAt_cons_none c _ hc, ih s (fun hh => h (by simp [hh]))]

theorem searchTitle_skip : ∀ (pre s : List Char), '#' ∉ pre →
    searchTitle (pre ++ s) = searchTitle s := by
  intro pre
  induction pre with
  | nil => intro s _; rfl
  | cons c t ih =>
    intro s h
    have hc : c ≠ '#' := fun hh => h (by simp [hh])
    show searchTitle (c :: (t ++ s)) = searchTitle s
    simp [searchTitle, titleAt_cons_none c _ hc, ih s (fun hh => h (by simp [hh]))]

theorem langAt_sound (s l : List Char) (h : langAt s = some l) :
    ∃ mk ws : List Char, ∃ a b : Char, ∃ rest : List Char,
      s = mk ++ (ws ++ a :: b :: rest) ∧ pyLower mk = tLangL ∧ ws ≠ [] ∧
      (∀ x ∈ ws, isPySpace x = true) ∧ isAlphaCh a = true ∧
      isAlphaCh b = true ∧ l = [a, b] := by
  by_cases hci : ciMatch tLangL s = true
  · obtain ⟨hlow, hlen5⟩ := ciMatch_take tLangL s hci
    simp only [langAt, hci, if_true] at h
    by_cases hr : wsRun (s.drop 5) = 0
    · rw [if_pos hr] at h
      simp at h
    · rw [if_neg hr] at h
      cases hd : (s.drop 5).drop (wsRun (s.drop 5)) with
      | nil => rw [hd] at h; simp at h
      | cons a tl =>
        cases tl with
        | nil => rw [hd] at h; simp at h
        | cons b tl2 =>
          rw [hd] at h
          by_cases hab : (isAlphaCh a && isAlphaCh b) = true
          · obtain ⟨ha, hb⟩ : isAlphaCh a = true ∧ isAlphaCh b = true := by
              simpa using hab
            simp [hab] at h
            subst h
            have hlenws : ((s.drop 5).take (wsRun (s.drop 5))).length =
                wsRun (s.drop 5) := by
              rw [List.length_take, Nat.min_eq_left (wsRun_le_length _)]
            refine ⟨s.take 5, (s.drop 5).take (wsRun (s.drop 5)), a, b, tl2,
              ?_, ?_, ?_, wsRun_all_take (s.drop 5), ha, hb, rfl⟩
            · conv_lhs => rw [← List.take_append_drop 5 s]
              congr 1
              conv_lhs =>
                rw [← List.take_append_drop (wsRun (s.drop 5)) (s.drop 5)]
              rw [hd]
            · exact hlow
            · intro h0
              apply hr
              rw [h0] at hlenws
              simpa using hlenws.symm
          · simp [hab] at h
  · simp [langAt, hci] at h


theorem pyStrip_two_alpha (a b : Char) (ha : isAlphaCh a = true)
    (hb : isAlphaCh b = true) : pyStrip [a, b] = [a, b] := by
  simp [pyStrip, List.dropWhile_cons, alpha_not_space ha, alpha_not_space hb]

theorem searchLang_through_title (m1 X : List Char) (hm1 : pyLower m1 = tTitleL) :
    searchLang (m1 ++ X) = searchLang X := by
  cases m1 with
  | nil => simp [pyLower, tTitleL] at hm1
  | cons c0 m1t =>
    cases m1t with
    | nil => simp [pyLower, tTitleL] at hm1
    | cons c1 m1r =>
      have h0 : pyLowerChar c0 = '#' ∧ pyLowerChar c1 = 't' ∧
          pyLower m1r = ['i', 't', 'l', 'e'] := by
        simpa [pyLower, tTitleL] using hm1
      have hstep : searchLang (c0 :: c1 :: (m1r ++ X)) =
          searchLang (c1 :: (m1r ++ X)) := by
        have hA : langAt (c0 :: c1 :: (m1r ++ X)) = none :=
          langAt_cons2_none c0 c1 _ (by rw [h0.2.1]; decide)
        simp [searchLang, hA]
      have hlow : pyLower (c1 :: m1r) = 't' :: ['i', 't', 'l', 'e'] := by
        calc pyLower (c1 :: m1r) = pyLowerChar c1 :: pyLower m1r := rfl
        _ = 't' :: ['i', 't', 'l', 'e'] := by rw [h0.2.1, h0.2.2]
      have hns : '#' ∉ (c1 :: m1r) :=
        not_hash_mem_of_lower hlow (by decide)
      show searchLang (c0 :: c1 :: (m1r ++ X)) = searchLang X
      rw [hstep]
      have hsk := searchLang_skip (c1 :: m1r) X hns
      rw [List.cons_append] at hsk
      exact hsk

/-- C3: the computed index key. Part one: whenever both regex searches
succeed, the key is the lower-cased, whitespace-trimmed title group,
an underscore, and the lower-cased language group — exactly the spec's
`lower(title)+"_"+lower(lang)`. Part two: for any caption built from any
case variant of the `#Title`/`#Lang` markers, any surrounding whitespace
runs, any hash-free prefix and any title line, the key is the normalized
title and the lower-cased two-letter code — case of the markers and
whitespace do not matter. -/
theorem c3_key_normalization :
    (∀ c tg lg : List Char, searchTitle c = some tg → searchLang c = some lg →
      captionKey c = some (pyLower (pyStrip tg) ++ '_' :: pyLower (pyStrip lg))) ∧
    (∀ pre m1 w1 : List Char, ∀ th : Char, ∀ tt m2 w2 : List Char,
     ∀ a b : Char, ∀ rest : List Char,
      '#' ∉ pre → pyLower m1 = tTitleL → w1 ≠ [] →
      (∀ x ∈ w1, isPySpace x = true) →
      isPySpace th = false → '\n' ∉ th :: tt → '#' ∉ th :: tt →
      pyLower m2 = tLangL → w2 ≠ [] → (∀ x ∈ w2, isPySpace x = true) →
      isAlphaCh a = true → isAlphaCh b = true →
      captionKey (pre ++ (m1 ++ (w1 ++ (th :: (tt ++ '\n' ::
          (m2 ++ (w2 ++ a :: b :: rest))))))) =
        some (pyLower (pyStrip (th :: tt)) ++ '_' ::
          [pyLowerChar a, pyLowerChar b])) := by
  constructor
  · intro c tg lg h1 h2
    simp [captionKey, h1, h2, index_key]
  · intro pre m1 w1 th tt m2 w2 a b rest hpre hm1 hw1 hws1 hth hnl hnh hm2 hw2
      hws2 ha hb
    have hT : searchTitle (pre ++ (m1 ++ (w1 ++ (th :: (tt ++ '\n' ::
        (m2 ++ (w2 ++ a :: b :: rest))))))) = some (th :: tt) := by
      rw [searchTitle_skip pre _ hpre]
      exact searchTitle_at m1 w1 th tt _ hm1 hw1 hws1 hth hnl
    have hL : searchLang (pre ++ (m1 ++ (w1 ++ (th :: (tt ++ '\n' ::
        (m2 ++ (w2 ++ a :: b :: rest))))))) = some [a, b] := by
      rw [searchLang_skip pre _ hpre, searchLang_through_title m1 _ hm1]
      rw [searchLang_skip w1 _ (fun hm => space_ne_hash (hws1 '#' hm) rfl)]
      rw [show th :: (tt ++ '\n' :: (m2 ++ (w2 ++ a :: b :: rest))) =
          (th :: tt) ++ ('\n' :: (m2 ++ (w2 ++ a :: b :: rest))) from by simp]
      rw [searchLang_skip (th :: tt) _ hnh]
      rw [show ('\n' :: (m2 ++ (w2 ++ a :: b :: rest))) =
          ['\n'] ++ (m2 ++ (w2 ++ a :: b :: rest)) from rfl]
      rw [searchLang_skip ['\n'] _ (by decide)]
      exact searchLang_at m2 w2 a b rest hm2 hw2 hws2 ha hb
    simp [captionKey, hT, hL, index_key, pyStrip_two_alpha a b ha hb, pyLower]

theorem c3_witness :
    captionKey (("Intro: ".data) ++ (("#TiTLE".data) ++ (("  ".data) ++
      ('F' :: (("oo Bar ".data) ++ '\n' :: (("#LaNg".data) ++ ((" ".data) ++
      'E' :: 'N' :: (" extra".data)))))))) = some ("foo bar_en".data) := by
  have h := c3_key_normalization.2 ("Intro: ".data) ("#TiTLE".data) ("  ".data)
    'F' ("oo Bar ".data) ("#LaNg".data) (" ".data) 'E' 'N' (" extra".data)
    (by decide) (by decide) (by decide) (by decide) (by decide) (by decide)
    (by decide) (by decide) (by decide) (by decide) (by decide) (by decide)
  exact h.trans (by decide)

/-- C9 counterexample: a `#Lang` marker followed by the three-letter
alphabetic run `eng` does yield a valid two-letter code, namely `en` —
the regex `([a-zA-Z]{2})` simply captures the first two letters of a
longer run, while the claim says a longer run must not yield a code. -/
theorem c9_counterexample :
    searchLang ("#Lang eng".data) = some ("en".data) ∧
    searchLang ("#Lang eng".data) ≠ none := by decide

/-- C9 amended: language extraction succeeds exactly when the caption
contains a case-insensitive `#Lang` marker followed by at least one
whitespace character and then at least two ASCII letters; the captured
group is the first two of those letters (the code then lower-cases them).
Soundness: every successful search decomposes the caption that way.
Completeness: every caption of that shape (with a hash-free prefix, so
the marker is the leftmost candidate) yields exactly those two letters. -/
theorem c9_lang_extraction :
    (∀ c l : List Char, searchLang c = some l →
      ∃ pre mk ws : List Char, ∃ a b : Char, ∃ rest : List Char,
        c = pre ++ (mk ++ (ws ++ a :: b :: rest)) ∧ pyLower mk = tLangL ∧
        ws ≠ [] ∧ (∀ x ∈ ws, isPySpace x = true) ∧
        isAlphaCh a = true ∧ isAlphaCh b = true ∧ l = [a, b]) ∧
    (∀ pre mk ws : List Char, ∀ a b : Char, ∀ rest : List Char,
      '#' ∉ pre → pyLower mk = tLangL → ws ≠ [] →
      (∀ x ∈ ws, isPySpace x = true) → isAlphaCh a = true → isAlphaCh b = true →
      searchLang (pre ++ (mk ++ (ws ++ a :: b :: rest))) = some [a, b]) := by
  constructor
  · intro c
    induction c with
    | nil => intro l h; simp [searchLang] at h
    | cons x xs ih =>
      intro l h
      cases hA : langAt (x :: xs) with
      | some r =>
        have hr : r = l := by
          simp [searchLang, hA] at h
          exact h
        obtain ⟨mk, ws, a, b, rest, hdec, hmk, hwsne, hwsall, ha, hb, hlab⟩ :=
          langAt_sound (x :: xs) r hA
        exact ⟨[], mk, ws, a, b, rest, by simpa using hdec, hmk, hwsne, hwsall,
          ha, hb, hr.symm.trans hlab⟩
      | none =>
        have h2 : searchLang xs = some l := by
          simpa [searchLang, hA] using h
        obtain ⟨pre, mk, ws, a, b, rest, hdec, hmk, hwsne, hwsall, ha, hb, hlab⟩ :=
          ih l h2
        exact ⟨x :: pre, mk, ws, a, b, rest, by simp [hdec], hmk, hwsne, hwsall,
          ha, hb, hlab⟩
  · intro pre mk ws a b rest hpre hmk hwsne hwsall ha hb
    rw [searchLang_skip pre _ hpre]
    exact searchLang_at mk ws a b rest hmk hwsne hwsall ha hb

theorem c9_witness :
    searchLang (("xx ".data) ++ (("#LaNG".data) ++ ((" ".data) ++
      'E' :: 'n' :: ("glish".data)))) = some ['E', 'n'] :=
  c9_lang_extraction.2 ("xx ".data) ("#LaNG".data) (" ".data) 'E' 'n'
    ("glish".data) (by decide) (by decide) (by decide) (by decide)
    (by decide) (by decide)
